import Mathlib

set_option linter.unusedVariables false

/-!
Verification development for the dbgo SQL transformation engine.

The development shallowly embeds the template pipeline of the repository:
the split-delimiter lexer, the recursive-descent template parser
(internal/template/parser.go), the renderer (internal/template/renderer.go),
together with models of the collaborators that the repository only ships
tests for: the sandboxed expression runtime, the macro loader, the
evaluator thread pool and the column lineage classifier.  Strings are
handled as lists of characters; machine behaviour that the claims need is
translated function by function.
-/

/-! ### Character classes and whitespace trimming -/

/-- Whitespace as trimmed by strings.TrimSpace (ASCII subset of unicode.IsSpace). -/
def isGoSpace (c : Char) : Bool :=
  c = ' ' || c = '\t' || c = '\n' || c = '\x0b' || c = '\x0c' || c = '\r'

/-- Whitespace of the regexp class backslash-s in RE2: tab, newline, form feed,
carriage return and space. -/
def isRegexSpace (c : Char) : Bool :=
  c = ' ' || c = '\t' || c = '\n' || c = '\x0c' || c = '\r'

/-- Word characters of the regexp class backslash-w: letters, digits, underscore. -/
def isWordChar (c : Char) : Bool :=
  ('a' ≤ c && c ≤ 'z') || ('A' ≤ c && c ≤ 'Z') || ('0' ≤ c && c ≤ '9') || c = '_'

/-- First character of an identifier: a letter or underscore. -/
def isIdentStart (c : Char) : Bool :=
  ('a' ≤ c && c ≤ 'z') || ('A' ≤ c && c ≤ 'Z') || c = '_'

def trimLeftChars (cs : List Char) : List Char := cs.dropWhile isGoSpace

def trimRightChars (cs : List Char) : List Char := (cs.reverse.dropWhile isGoSpace).reverse

/-- strings.TrimSpace of Go, on character lists. -/
def goTrim (cs : List Char) : List Char := trimRightChars (trimLeftChars cs)

/-! ### Runtime values

Modelled from the spec: the embedded expression runtime (go.starlark.net and
internal/starlark/context.go) is not under src, only its tests are.  Spec
section 9 gives the value sum type; Float, Mapping, Callable and other host
values are not exercised by any claim and are left out of the model.  Spec
section 4.4 gives the stringification rules. -/

inductive Value where
  | none
  | bool (b : Bool)
  | int (i : Int)
  | str (s : String)
  | list (xs : List Value)

mutual

/-- Stringified expression mode of spec section 4.4: strings are inserted
verbatim, booleans render as True and False, None renders as None, sequences
render with canonical bracket syntax. -/
def Value.strChars : Value → List Char
  | .none => "None".data
  | .bool b => (cond b "True" "False").data
  | .int i => (toString i).data
  | .str s => s.data
  | .list xs => '[' :: (Value.seqChars xs ++ [']'])

/-- Rendering of a value inside a sequence display: strings keep their quotes. -/
def Value.reprChars : Value → List Char
  | .none => "None".data
  | .bool b => (cond b "True" "False").data
  | .int i => (toString i).data
  | .str s => '"' :: (s.data ++ ['"'])
  | .list xs => '[' :: (Value.seqChars xs ++ [']'])

/-- Comma-separated rendering of the elements of a sequence. -/
def Value.seqChars : List Value → List Char
  | [] => []
  | [x] => Value.reprChars x
  | x :: y :: xs => Value.reprChars x ++ (',' :: ' ' :: Value.seqChars (y :: xs))

end

/-- Truthiness of spec section 4.8: False, None, zero, empty strings and empty
sequences are falsy. -/
def Value.truth : Value → Bool
  | .none => false
  | .bool b => b
  | .int i => decide (i ≠ 0)
  | .str s => !s.data.isEmpty
  | .list xs => !xs.isEmpty

/-- starlark.Iterate: sequences are iterable, scalar values are not (Starlark
strings are not iterable). -/
def Value.iterate : Value → Option (List Value)
  | .list xs => some xs
  | _ => Option.none

/-- Starlark type names, used in the cannot-iterate render error. -/
def Value.typeName : Value → String
  | .none => "NoneType"
  | .bool _ => "bool"
  | .int _ => "int"
  | .str _ => "string"
  | .list _ => "list"

/-! ### The execution context and expression evaluation -/

/-- The globals or locals of one rendering: an association list from names to
runtime values, looked up front to back (so that a fresh binding shadows an
older one, as a copied Go map does). -/
abbrev Ctx := List (String × Value)

def lookupCtx (ctx : Ctx) (k : String) : Option Value :=
  (ctx.find? (fun kv => kv.1 == k)).map (fun kv => kv.2)

/-- Errors of the expression runtime, spec section 4.4 and 4.6. -/
inductive EvalError where
  | emptyExpr
  | undefinedVar (name : String)
  | unsupportedExpr (e : String)
deriving DecidableEq, Repr

def isIdentChars (cs : List Char) : Bool :=
  match cs with
  | [] => false
  | c :: rest => isIdentStart c && rest.all isWordChar

/-- Modelled from the spec: expression-mode evaluation (spec section 4.4) with
locals shadowing globals (spec section 4.8).  The repository embeds the
third-party Starlark evaluator, whose sources are outside the repository;
only the fragment the claims exercise is modelled: an identifier evaluates to
its binding (locals first, then globals; unbound names are evaluation
errors), the empty expression is rejected with an evaluation error (spec
section 4.6), and every other expression form is outside the model. -/
def evalExpr (globals locals : Ctx) (e : String) : Except EvalError Value :=
  if e.data.isEmpty then .error .emptyExpr
  else if isIdentChars e.data then
    match lookupCtx locals e with
    | some v => .ok v
    | Option.none =>
      match lookupCtx globals e with
      | some v => .ok v
      | Option.none => .error (.undefinedVar e)
  else .error (.unsupportedExpr e)

/-- Stringified expression mode: evaluate, then stringify for interpolation. -/
def evalExprString (globals locals : Ctx) (e : String) : Except EvalError (List Char) :=
  (evalExpr globals locals e).map Value.strChars

/-! ### Template lexer

Modelled from the spec: the lexer implementation is not under src (only
lexer_test.go is).  Spec section 4.6 fixes the behaviour: split delimiters,
brace-depth tracking inside both delimiter kinds, 1-based position tracking,
whitespace trimmed from token values, unclosed delimiters are lexing errors.
The function is fuel-based; tokenize passes enough fuel for any input, since
every step consumes at least one character. -/

structure Pos where
  line : Nat
  col : Nat
deriving DecidableEq, Repr

inductive TokenType where
  | text
  | expr
  | stmt
  | eof
deriving DecidableEq, Repr

structure Token where
  type : TokenType
  value : String
  pos : Pos
deriving DecidableEq, Repr

inductive LexError where
  | unclosedExpr (pos : Pos)
  | unclosedStmt (pos : Pos)
  | fuelExhausted
deriving DecidableEq, Repr

/-- Advance a 1-based position over one character. -/
def advChar (p : Pos) (c : Char) : Pos :=
  if c = '\n' then ⟨p.line + 1, 1⟩ else ⟨p.line, p.col + 1⟩

/-- Advance a 1-based position over a character list. -/
def advChars (p : Pos) (cs : List Char) : Pos := cs.foldl advChar p

/-- Emit a TEXT token for the accumulated characters, if any. -/
def flushText (acc : List Char) (start : Pos) : List Token :=
  if acc.isEmpty then [] else [⟨.text, String.mk acc, start⟩]

/-- Does the input begin one of the two opening delimiters? -/
def isOpenDelim : List Char → Bool
  | '{' :: '{' :: _ => true
  | '{' :: '*' :: _ => true
  | _ => false

/-- Does the input contain an opening delimiter anywhere? -/
def hasDelim : List Char → Bool
  | [] => false
  | c :: rest => isOpenDelim (c :: rest) || hasDelim rest

inductive LexMode where
  | text
  | expr
  | stmt
deriving DecidableEq

/-- One pass of the split-delimiter lexer.  Arguments: fuel, mode, remaining
input, current position, start position of the token being accumulated,
unmatched brace depth (expression and statement modes), accumulated token
characters. -/
def lexRun : Nat → LexMode → List Char → Pos → Pos → Nat → List Char →
    Except LexError (List Token)
  | 0, _, _, _, _, _, _ => .error .fuelExhausted
  | fuel + 1, .text, cs, pos, tokStart, _, acc =>
    match cs with
    | [] => .ok (flushText acc tokStart ++ [⟨.eof, "", pos⟩])
    | '{' :: '{' :: rest =>
      match lexRun fuel .expr rest ⟨pos.line, pos.col + 2⟩ pos 0 [] with
      | .error e => .error e
      | .ok toks => .ok (flushText acc tokStart ++ toks)
    | '{' :: '*' :: rest =>
      match lexRun fuel .stmt rest ⟨pos.line, pos.col + 2⟩ pos 0 [] with
      | .error e => .error e
      | .ok toks => .ok (flushText acc tokStart ++ toks)
    | c :: rest => lexRun fuel .text rest (advChar pos c) tokStart 0 (acc ++ [c])
  | fuel + 1, .expr, cs, pos, tokStart, depth, acc =>
    match cs with
    | [] => .error (.unclosedExpr tokStart)
    | '}' :: '}' :: rest =>
      if depth = 0 then
        match lexRun fuel .text rest ⟨pos.line, pos.col + 2⟩ ⟨pos.line, pos.col + 2⟩ 0 [] with
        | .error e => .error e
        | .ok toks => .ok (⟨.expr, String.mk (goTrim acc), tokStart⟩ :: toks)
      else
        lexRun fuel .expr ('}' :: rest) (advChar pos '}') tokStart (depth - 1) (acc ++ ['}'])
    | '{' :: rest => lexRun fuel .expr rest (advChar pos '{') tokStart (depth + 1) (acc ++ ['{'])
    | '}' :: rest => lexRun fuel .expr rest (advChar pos '}') tokStart (depth - 1) (acc ++ ['}'])
    | c :: rest => lexRun fuel .expr rest (advChar pos c) tokStart depth (acc ++ [c])
  | fuel + 1, .stmt, cs, pos, tokStart, depth, acc =>
    match cs with
    | [] => .error (.unclosedStmt tokStart)
    | '*' :: '}' :: rest =>
      if depth = 0 then
        match lexRun fuel .text rest ⟨pos.line, pos.col + 2⟩ ⟨pos.line, pos.col + 2⟩ 0 [] with
        | .error e => .error e
        | .ok toks => .ok (⟨.stmt, String.mk (goTrim acc), tokStart⟩ :: toks)
      else
        lexRun fuel .stmt ('}' :: rest) (advChar pos '*') tokStart depth (acc ++ ['*'])
    | '{' :: rest => lexRun fuel .stmt rest (advChar pos '{') tokStart (depth + 1) (acc ++ ['{'])
    | '}' :: rest => lexRun fuel .stmt rest (advChar pos '}') tokStart (depth - 1) (acc ++ ['}'])
    | c :: rest => lexRun fuel .stmt rest (advChar pos c) tokStart depth (acc ++ [c])

/-- Tokenize a template string, spec section 4.6. -/
def tokenize (s : String) : Except LexError (List Token) :=
  lexRun (s.data.length + 1) .text s.data ⟨1, 1⟩ ⟨1, 1⟩ 0 []

/-! ### Statement classification (internal/template/parser.go)

The parser recognizes statements with three compiled regexps:

  forPattern:  caret for s+ (w+) s+ in s+ (.+?) s* colon? s* dollar
  ifPattern:   caret if s+ (.+?) s* colon? s* dollar
  elifPattern: caret elif s+ (.+?) s* colon? s* dollar

The matcher functions below implement the submatch semantics of those
patterns (greedy plus-closures, lazy dot-plus) on whitespace-trimmed input;
both call sites, peekStmtKind and parseStmt, trim the statement text before
matching, and on trimmed input the corner in which the lazy group would have
to capture whitespace cannot arise. -/

inductive StmtKind where
  | unknown
  | forK
  | endforK
  | ifK
  | elifK
  | elseK
  | endifK
deriving DecidableEq, Repr

/-- Strip a literal prefix, returning the remainder. -/
def stripPre : List Char → List Char → Option (List Char)
  | [], cs => some cs
  | _ :: _, [] => Option.none
  | p :: ps, c :: cs => if c = p then stripPre ps cs else Option.none

/-- Require at least one regexp-whitespace character, then consume the maximal
whitespace run (the forced greedy behaviour of a s-plus closure followed by a
non-whitespace literal or a lazy group on trimmed input). -/
def reqWS : List Char → Option (List Char)
  | [] => Option.none
  | c :: rest => if isRegexSpace c then some (rest.dropWhile isRegexSpace) else Option.none

/-- Drop trailing regexp whitespace. -/
def trimRws (cs : List Char) : List Char := (cs.reverse.dropWhile isRegexSpace).reverse

/-- Lazy capture of the pattern tail: the shortest nonempty prefix of the
input whose remainder is whitespace, an optional colon and whitespace.
Equivalently the input minus its longest suffix of that shape. -/
def tailCapture (r : List Char) : Option (List Char) :=
  let r1 := trimRws r
  if r1.isEmpty then Option.none
  else if r1.getLast? = some ':' then
    let r2 := trimRws r1.dropLast
    if r2.isEmpty then some r1 else some r2
  else some r1

/-- The part of each pattern after its keyword: mandatory whitespace, then the
lazily captured expression with its optional trailing colon. -/
def exprTail (cs : List Char) : Option (List Char) :=
  match reqWS cs with
  | Option.none => Option.none
  | some r => tailCapture r

/-- Submatches of forPattern on trimmed input: the loop variable and the
iterated expression. -/
def forMatch (cs : List Char) : Option (List Char × List Char) :=
  match stripPre "for".data cs with
  | Option.none => Option.none
  | some r0 =>
    match reqWS r0 with
    | Option.none => Option.none
    | some r1 =>
      if (r1.takeWhile isWordChar).isEmpty then Option.none
      else
        match reqWS (r1.drop (r1.takeWhile isWordChar).length) with
        | Option.none => Option.none
        | some r3 =>
          match stripPre "in".data r3 with
          | Option.none => Option.none
          | some r4 =>
            match exprTail r4 with
            | Option.none => Option.none
            | some e => some (r1.takeWhile isWordChar, e)

/-- Submatch of ifPattern on trimmed input: the condition expression. -/
def ifMatch (cs : List Char) : Option (List Char) :=
  match stripPre "if".data cs with
  | Option.none => Option.none
  | some r0 => exprTail r0

/-- Submatch of elifPattern on trimmed input: the condition expression. -/
def elifMatch (cs : List Char) : Option (List Char) :=
  match stripPre "elif".data cs with
  | Option.none => Option.none
  | some r0 => exprTail r0

/-- peekStmtKind of parser.go: classify a statement token value without
consuming it. -/
def peekStmtKind (value : String) : StmtKind :=
  let t := goTrim value.data
  if t = "endfor".data then .endforK
  else if t = "endif".data then .endifK
  else if t = "else".data then .elseK
  else if t = "else:".data then .elseK
  else if (forMatch t).isSome then .forK
  else if (ifMatch t).isSome then .ifK
  else if (elifMatch t).isSome then .elifK
  else .unknown

/-! ### Statement parsing and the template parser -/

structure StmtNode where
  pos : Pos
  kind : StmtKind
  varName : String
  expr : String
deriving DecidableEq, Repr

inductive ParseError where
  | invalidStatement (pos : Pos) (text : String)
  | unexpectedStatement (pos : Pos) (text : String)
  | unexpectedToken (pos : Pos)
  | unmatchedBlock (pos : Pos) (kind : StmtKind)
  | outOfFuel
deriving DecidableEq, Repr

/-- parseStmt of parser.go: parse one statement token into a StmtNode,
checking the literal keywords first and the three patterns in order. -/
def parseStmt (tok : Token) : Except ParseError StmtNode :=
  let t := goTrim tok.value.data
  if t = "endfor".data then .ok ⟨tok.pos, .endforK, "", ""⟩
  else if t = "endif".data then .ok ⟨tok.pos, .endifK, "", ""⟩
  else if t = "else".data then .ok ⟨tok.pos, .elseK, "", ""⟩
  else if t = "else:".data then .ok ⟨tok.pos, .elseK, "", ""⟩
  else
    match forMatch t with
    | some (x, e) => .ok ⟨tok.pos, .forK, String.mk x, String.mk e⟩
    | Option.none =>
      match ifMatch t with
      | some c => .ok ⟨tok.pos, .ifK, "", String.mk c⟩
      | Option.none =>
        match elifMatch t with
        | some c => .ok ⟨tok.pos, .elifK, "", String.mk c⟩
        | Option.none => .error (.invalidStatement tok.pos (String.mk t))

/-- Template AST, spec section 3. -/
inductive Node where
  | text (pos : Pos) (s : String)
  | exprN (pos : Pos) (e : String)
  | forB (pos : Pos) (varName : String) (iterExpr : String) (body : List Node)
  | ifB (pos : Pos) (cond : String) (body : List Node)
      (elifs : List (Pos × String × List Node)) (elseB : Option (List Node))

/-- The elif-else-endif chain of parseIfBlock in parser.go.  The body parser
is passed in as a function so that the two mutually recursive source
functions can be layered without mutual recursion; nodesF is instantiated
with parseNodes at one fuel step less. -/
def parseIfChain (fuel : Nat)
    (nodesF : List Token → List StmtKind → Except ParseError (List Node × List Token))
    (opPos : Pos) (cond : String) (body : List Node)
    (elifs : List (Pos × String × List Node)) (ts : List Token) :
    Except ParseError (Node × List Token) :=
  match fuel with
  | 0 => .error .outOfFuel
  | fuel + 1 =>
    match ts with
    | [] => .error (.unmatchedBlock opPos .ifK)
    | tok :: rest =>
      if tok.type = .eof then .error (.unmatchedBlock opPos .ifK)
      else if tok.type ≠ .stmt then .error (.unmatchedBlock opPos .ifK)
      else
        match parseStmt tok with
        | .error e => .error e
        | .ok nst =>
          match nst.kind with
          | .endifK => .ok (.ifB opPos cond body elifs Option.none, rest)
          | .elifK =>
            match nodesF rest [.elifK, .elseK, .endifK] with
            | .error e => .error e
            | .ok (eb, r) =>
              parseIfChain fuel nodesF opPos cond body (elifs ++ [(nst.pos, nst.expr, eb)]) r
          | .elseK =>
            match nodesF rest [.endifK] with
            | .error e => .error e
            | .ok (elseB, r) =>
              match r with
              | [] => .error (.unmatchedBlock opPos .ifK)
              | etok :: r2 =>
                if etok.type = .eof then .error (.unmatchedBlock opPos .ifK)
                else
                  match parseStmt etok with
                  | .error e => .error e
                  | .ok est =>
                    if est.kind = .endifK then
                      .ok (.ifB opPos cond body elifs (some elseB), r2)
                    else .error (.unmatchedBlock opPos .ifK)
          | _ => .error (.unmatchedBlock opPos .ifK)

/-- parseNodes of parser.go: parse nodes until EOF or a statement whose kind
is in stopOn (left unconsumed), handling for and if blocks in place.  The for
case inlines parseForBlock; the if case delegates the branch chain to
parseIfChain.  Returns the nodes and the unconsumed remainder. -/
def parseNodes : Nat → List Token → List StmtKind →
    Except ParseError (List Node × List Token)
  | 0, _, _ => .error .outOfFuel
  | fuel + 1, ts, stopOn =>
    match ts with
    | [] => .ok ([], [])
    | tok :: rest =>
      match tok.type with
      | .eof => .ok ([], tok :: rest)
      | .text =>
        match parseNodes fuel rest stopOn with
        | .error e => .error e
        | .ok (ns, r) => .ok (.text tok.pos tok.value :: ns, r)
      | .expr =>
        match parseNodes fuel rest stopOn with
        | .error e => .error e
        | .ok (ns, r) => .ok (.exprN tok.pos tok.value :: ns, r)
      | .stmt =>
        if stopOn.contains (peekStmtKind tok.value) then .ok ([], tok :: rest)
        else
          match parseStmt tok with
          | .error e => .error e
          | .ok st =>
            match st.kind with
            | .forK =>
              match parseNodes fuel rest [.endforK] with
              | .error e => .error e
              | .ok (body, r) =>
                match r with
                | [] => .error (.unmatchedBlock tok.pos .forK)
                | endTok :: r2 =>
                  if endTok.type = .eof then .error (.unmatchedBlock tok.pos .forK)
                  else if endTok.type ≠ .stmt then .error (.unmatchedBlock tok.pos .forK)
                  else
                    match parseStmt endTok with
                    | .error e => .error e
                    | .ok est =>
                      if est.kind = .endforK then
                        match parseNodes fuel r2 stopOn with
                        | .error e => .error e
                        | .ok (ns, r3) =>
                          .ok (.forB tok.pos st.varName st.expr body :: ns, r3)
                      else .error (.unmatchedBlock tok.pos .forK)
            | .ifK =>
              match parseNodes fuel rest [.elifK, .elseK, .endifK] with
              | .error e => .error e
              | .ok (body, r) =>
                match parseIfChain fuel (fun a b => parseNodes fuel a b)
                    tok.pos st.expr body [] r with
                | .error e => .error e
                | .ok (blk, r2) =>
                  match parseNodes fuel r2 stopOn with
                  | .error e => .error e
                  | .ok (ns, r3) => .ok (blk :: ns, r3)
            | .endforK => .error (.unmatchedBlock tok.pos .endforK)
            | .endifK => .error (.unmatchedBlock tok.pos .endifK)
            | .elseK => .error (.unmatchedBlock tok.pos .elseK)
            | .elifK => .error (.unmatchedBlock tok.pos .elifK)
            | .unknown => .error (.unexpectedStatement tok.pos tok.value)

/-- Parse a token stream into the template AST (Parse of parser.go).  The
fuel is an upper bound on the total number of recursive calls; four steps per
token plus a constant always suffice, since every nested call consumes at
least one token first. -/
def parseTokens (ts : List Token) : Except ParseError (List Node) :=
  match parseNodes (4 * ts.length + 8) ts [] with
  | .error e => .error e
  | .ok (ns, _) => .ok ns

/-! ### Renderer (internal/template/renderer.go) -/

/-- Render errors: each constructor corresponds to one error site of
renderer.go (WrapRenderError and NewRenderErrorf calls). -/
inductive RenderError where
  | evalFailed (pos : Pos) (err : EvalError)
  | iterEvalFailed (pos : Pos) (err : EvalError)
  | cannotIterate (pos : Pos) (ty : String)
  | condEvalFailed (pos : Pos) (err : EvalError)
  | elifEvalFailed (pos : Pos) (err : EvalError)
deriving DecidableEq, Repr

/-- withLocal of renderer.go: a fresh copy of the locals with one more
binding; as an association list, consing the binding in front. -/
def withLocal (locals : Ctx) (name : String) (v : Value) : Ctx :=
  (name, v) :: locals

mutual

/-- renderNode of renderer.go: text appends verbatim, expressions are
evaluated in stringified mode, for and if blocks are delegated. -/
def renderNode (g locals : Ctx) : Node → Except RenderError (List Char)
  | .text _ s => .ok s.data
  | .exprN p e =>
    match evalExprString g locals e with
    | .error err => .error (.evalFailed p err)
    | .ok out => .ok out
  | .forB p varName iterExpr body =>
    match evalExpr g locals iterExpr with
    | .error err => .error (.iterEvalFailed p err)
    | .ok v =>
      match Value.iterate v with
      | Option.none => .error (.cannotIterate p (Value.typeName v))
      | some xs => renderLoop g locals varName body xs
  | .ifB p cond body elifs elseB =>
    match evalExpr g locals cond with
    | .error err => .error (.condEvalFailed p err)
    | .ok v =>
      if Value.truth v then renderNodes g locals body
      else renderElifs g locals elifs elseB
termination_by n => (sizeOf n, 0)

/-- renderNodes of renderer.go: concatenate the renderings of a node list. -/
def renderNodes (g locals : Ctx) : List Node → Except RenderError (List Char)
  | [] => .ok []
  | n :: ns =>
    match renderNode g locals n with
    | .error e => .error e
    | .ok a =>
      match renderNodes g locals ns with
      | .error e => .error e
      | .ok b => .ok (a ++ b)
termination_by ns => (sizeOf ns, 0)

/-- The iteration of renderForBlock in renderer.go: render the body once per
element, each time with a fresh copy of the locals extended by the loop
variable. -/
def renderLoop (g locals : Ctx) (varName : String) (body : List Node) :
    List Value → Except RenderError (List Char)
  | [] => .ok []
  | x :: xs =>
    match renderNodes g (withLocal locals varName x) body with
    | .error e => .error e
    | .ok a =>
      match renderLoop g locals varName body xs with
      | .error e => .error e
      | .ok b => .ok (a ++ b)
termination_by xs => (sizeOf body, xs.length + 1)

/-- The elif chain and else branch of renderIfBlock in renderer.go. -/
def renderElifs (g locals : Ctx) :
    List (Pos × String × List Node) → Option (List Node) →
    Except RenderError (List Char)
  | [], Option.none => .ok []
  | [], some elseB => renderNodes g locals elseB
  | (p, c, b) :: rest, elseB =>
    match evalExpr g locals c with
    | .error err => .error (.elifEvalFailed p err)
    | .ok v =>
      if Value.truth v then renderNodes g locals b
      else renderElifs g locals rest elseB
termination_by elifs elseB => (sizeOf elifs + sizeOf elseB, 0)

end

/-- Errors of the whole string-to-string pipeline. -/
inductive TemplateError where
  | lex (e : LexError)
  | parse (e : ParseError)
  | render (e : RenderError)
deriving DecidableEq, Repr

/-- RenderString of renderer.go: lex, parse, then render with no locals. -/
def renderString (s : String) (g : Ctx) : Except TemplateError String :=
  match tokenize s with
  | .error e => .error (.lex e)
  | .ok ts =>
    match parseTokens ts with
    | .error e => .error (.parse e)
    | .ok ns =>
      match renderNodes g [] ns with
      | .error e => .error (.render e)
      | .ok out => .ok (String.mk out)

/-! ### Macro registration into the execution context

Modelled from the spec: internal/starlark/context.go is not under src, only
context_test.go is.  Spec section 3 requires the reserved namespaces config,
env, target and this to be rejected at registration, so that the globals
injected by the engine are never shadowed. -/

/-- The namespaces reserved for the engine-injected globals. -/
def reservedNamespaces : List String := ["config", "env", "target", "this"]

inductive RegistryError where
  | reservedNamespace (ns : String)
  | duplicateNamespace (ns : String)
deriving DecidableEq, Repr

/-- Modelled from the spec: AddMacros of the execution context.  Registration
of any entry whose namespace is reserved fails; otherwise the macro
namespaces are appended behind the existing globals. -/
def addMacros (globals : Ctx) (ms : List (String × Value)) : Except RegistryError Ctx :=
  match ms.find? (fun m => reservedNamespaces.contains m.1) with
  | some m => .error (.reservedNamespace m.1)
  | Option.none => .ok (globals ++ ms)

/-! ### Macro loader

Modelled from the spec: the macro loader implementation is not under src,
only its tests are.  Spec section 4.5: a missing directory yields an empty
registry and no error; star files are enumerated in lexicographic order;
the namespace is the file stem, validated against the identifier regexp and
the reserved list; bindings starting with an underscore are dropped;
duplicate namespaces are load errors.  Execution of a star file by the
embedded evaluator is abstracted as the final bindings carried by the file
entry. -/

/-- One file of the macros directory; bindings abstract the result of
executing it in a fresh evaluator frame. -/
structure StarFile where
  name : String
  bindings : List (String × Value)

/-- A loaded module: namespace and the exported bindings. -/
structure LoadedModule where
  namespaceName : String
  exports : List (String × Value)

inductive LoadError where
  | invalidNamespace (file : String)
  | reservedNamespace (ns : String)
  | duplicateNamespace (ns : String)

/-- Is the suffix a suffix of the name, on character lists? -/
def endsWithChars (name suffix : String) : Bool :=
  suffix.data.isSuffixOf name.data

/-- The file stem: the name with the trailing star extension removed. -/
def fileStem (name : String) : String :=
  String.mk (name.data.take (name.data.length - ".star".data.length))

/-- validateNamespace of the loader: the namespace regexp, a letter or
underscore then word characters. -/
def validateNamespace (ns : String) : Bool := isIdentChars ns.data

/-- Lexicographic comparison of file names, on character lists. -/
def fileLe (a b : StarFile) : Bool :=
  decide (a.name.data ≤ b.name.data)

/-- Insertion into a list sorted by fileLe. -/
def insertFile (f : StarFile) : List StarFile → List StarFile
  | [] => [f]
  | g :: gs => if fileLe f g then f :: g :: gs else g :: insertFile f gs

/-- Insertion sort of the directory listing by file name. -/
def sortFiles : List StarFile → List StarFile
  | [] => []
  | f :: fs => insertFile f (sortFiles fs)

/-- Register the star files one by one, validating each namespace and
rejecting duplicates against the registry built so far. -/
def registerFiles : List StarFile → List LoadedModule →
    Except LoadError (List LoadedModule)
  | [], acc => .ok acc.reverse
  | f :: fs, acc =>
    let ns := fileStem f.name
    if !validateNamespace ns then .error (.invalidNamespace f.name)
    else if reservedNamespaces.contains ns then .error (.reservedNamespace ns)
    else if acc.any (fun m => m.namespaceName == ns) then .error (.duplicateNamespace ns)
    else
      registerFiles fs
        (⟨ns, f.bindings.filter (fun b => !(b.1.data.head? = some '_'))⟩ :: acc)

/-- Modelled from the spec: Load of the macro loader.  The directory is given
as an optional listing; a missing directory is not an error and yields the
empty registry.  Only star files are considered, in lexicographic order. -/
def loadMacros (dir : Option (List StarFile)) : Except LoadError (List LoadedModule) :=
  match dir with
  | Option.none => .ok []
  | some files =>
    registerFiles (sortFiles (files.filter (fun f => endsWithChars f.name ".star"))) []

/-! ### Evaluator thread pool

Modelled from the spec: the thread pool implementation is not under src,
only its tests are.  Spec sections 4.4 and 9: a bounded free list, default
bound 16, Get pops a pooled thread or creates a fresh one, Put stores the
thread only while the pool is below its bound and discards it otherwise. -/

structure Thread where
  name : String
deriving DecidableEq, Repr

structure ThreadPool where
  maxSize : Nat
  threads : List Thread
deriving DecidableEq, Repr

/-- NewThreadPool: size zero selects the default bound of sixteen. -/
def newThreadPool (size : Nat) : ThreadPool :=
  ⟨if size = 0 then 16 else size, []⟩

/-- Get: reuse a pooled thread if any (renamed to the requested name), else a
fresh thread. -/
def ThreadPool.get (p : ThreadPool) (name : String) : Thread × ThreadPool :=
  match p.threads with
  | [] => (⟨name⟩, p)
  | _ :: ts => (⟨name⟩, ⟨p.maxSize, ts⟩)

/-- Put: store the returned thread while below the bound, discard it when the
pool is full. -/
def ThreadPool.put (p : ThreadPool) (t : Thread) : ThreadPool :=
  if p.threads.length < p.maxSize then ⟨p.maxSize, t :: p.threads⟩ else p

/-- Size: the number of pooled threads. -/
def ThreadPool.size (p : ThreadPool) : Nat := p.threads.length

/-- One client interaction with the pool. -/
inductive PoolOp where
  | get (name : String)
  | put (t : Thread)

def ThreadPool.step (p : ThreadPool) : PoolOp → ThreadPool
  | .get name => (p.get name).2
  | .put t => p.put t

/-- Run a sequence of Get and Put operations. -/
def runPoolOps (p : ThreadPool) (ops : List PoolOp) : ThreadPool :=
  ops.foldl ThreadPool.step p

/-! ### Column lineage classification

Modelled from the spec: the lineage extractor is not under src, only its
tests are.  Spec section 4.10 fixes the classification of one projection
item; the third-party SQL parser is out of scope, so the classifier operates
on the parsed projection expression.  Expression forms carry the arity the
spec rules mention; the COALESCE rule counts distinct contributing sources,
and the test TestExtractLineage_Joins pins a single-source COALESCE over an
aggregate to a Direct classification. -/

inductive TransformType where
  | direct
  | expression
deriving DecidableEq, Repr

structure ColSource where
  table : Option String
  column : String
deriving DecidableEq, Repr

/-- A projection expression of the outermost SELECT. -/
inductive SqlExpr where
  | col (table : Option String) (name : String)
  | lit (v : String)
  | scalarFn (name : String) (arg : SqlExpr)
  | genFn (name : String)
  | aggFn (name : String) (arg : Option SqlExpr)
  | winFn (name : String) (arg : Option SqlExpr)
  | binOp (l : SqlExpr) (r : SqlExpr)
  | castE (arg : SqlExpr)
  | caseW (cond : SqlExpr) (thenE : SqlExpr) (elseE : SqlExpr)
  | coalesce (a : SqlExpr) (b : SqlExpr)
deriving Repr

/-- The contributing column references of an expression, in syntactic order. -/
def sqlSources : SqlExpr → List ColSource
  | .col t n => [⟨t, n⟩]
  | .lit _ => []
  | .scalarFn _ a => sqlSources a
  | .genFn _ => []
  | .aggFn _ Option.none => []
  | .aggFn _ (some a) => sqlSources a
  | .winFn _ Option.none => []
  | .winFn _ (some a) => sqlSources a
  | .binOp l r => sqlSources l ++ sqlSources r
  | .castE a => sqlSources a
  | .caseW c t e => sqlSources c ++ sqlSources t ++ sqlSources e
  | .coalesce a b => sqlSources a ++ sqlSources b

/-- Does the expression contain an aggregate function application? -/
def containsAgg : SqlExpr → Bool
  | .col _ _ => false
  | .lit _ => false
  | .scalarFn _ a => containsAgg a
  | .genFn _ => false
  | .aggFn _ _ => true
  | .winFn _ Option.none => false
  | .winFn _ (some a) => containsAgg a
  | .binOp l r => containsAgg l || containsAgg r
  | .castE a => containsAgg a
  | .caseW c t e => containsAgg c || containsAgg t || containsAgg e
  | .coalesce a b => containsAgg a || containsAgg b

/-- Classification of one output column, spec section 4.10: a bare column is
Direct; a single-argument scalar over a bare column is Direct; a COALESCE is
an Expression exactly when it draws on at least two distinct sources;
aggregates, window functions, binary expressions, CASE, CAST, literals and
generators are Expressions. -/
def classifyTransform : SqlExpr → TransformType
  | .col _ _ => .direct
  | .scalarFn _ (.col _ _) => .direct
  | .scalarFn _ _ => .expression
  | .coalesce a b =>
    if 2 ≤ ((sqlSources a ++ sqlSources b).dedup).length then .expression else .direct
  | .lit _ => .expression
  | .genFn _ => .expression
  | .aggFn _ _ => .expression
  | .winFn _ _ => .expression
  | .binOp _ _ => .expression
  | .castE _ => .expression
  | .caseW _ _ _ => .expression

/-- The function recorded with the column, lowercased. -/
def colFunction : SqlExpr → Option String
  | .scalarFn n _ => some n.toLower
  | .genFn n => some n.toLower
  | .aggFn n _ => some n.toLower
  | .winFn n _ => some n.toLower
  | .coalesce _ _ => some "coalesce"
  | _ => Option.none

/-- Per-column lineage record, spec section 3. -/
structure ColumnLineage where
  name : String
  transform : TransformType
  function : Option String
  sources : List ColSource
deriving DecidableEq, Repr

/-- Build the lineage record of one projection item. -/
def mkColumnLineage (name : String) (e : SqlExpr) : ColumnLineage :=
  ⟨name, classifyTransform e, colFunction e, (sqlSources e).dedup⟩

/-- The projection item COALESCE(SUM(o.amount), 0) of the join test of the
lineage extractor. -/
def coalesceSumColumn : SqlExpr :=
  .coalesce (.aggFn "SUM" (some (.col (some "o") "amount"))) (.lit "0")

/-- The concatenation, in order, of the stringifications of a sequence. -/
def concatStringified (xs : List Value) : String :=
  String.mk ((xs.map Value.strChars).flatten)

/-! ### Claims -/

/-- Claim C5: lexing the template consisting of an empty expression succeeds
with an EXPR token whose value is the empty string, and rendering that
template fails with an evaluation error for every execution context. -/
theorem emptyExpr_lexes_and_rendering_fails :
    tokenize "\x7b\x7b \x7d\x7d" =
      .ok [⟨.expr, "", ⟨1, 1⟩⟩, ⟨.eof, "", ⟨1, 6⟩⟩] ∧
    ∀ g : Ctx, renderString "\x7b\x7b \x7d\x7d" g =
      .error (.render (.evalFailed ⟨1, 1⟩ .emptyExpr)) := by
  constructor
  · rfl
  · intro g
    have ht : tokenize "\x7b\x7b \x7d\x7d" =
        .ok [⟨.expr, "", ⟨1, 1⟩⟩, ⟨.eof, "", ⟨1, 6⟩⟩] := rfl
    have hp : parseTokens [⟨.expr, "", ⟨1, 1⟩⟩, ⟨.eof, "", ⟨1, 6⟩⟩] =
        .ok [Node.exprN ⟨1, 1⟩ ""] := rfl
    simp only [renderString, ht, hp]
    simp [renderNodes, renderNode, evalExprString, evalExpr, Except.map]

/-- Claim C4: the parser reports a for block whose body reaches the end of
input as an unmatched for, an if block without endif as an unmatched if, and
a stray elif, else, endfor or endif as an unmatched block of its own kind. -/
theorem parser_unmatched_block_errors :
    ∀ (s e : String) (p1 p2 p3 p4 : Pos),
      parseTokens [⟨.stmt, "for x in xs:", p1⟩, ⟨.text, s, p2⟩, ⟨.expr, e, p3⟩,
          ⟨.eof, "", p4⟩] = .error (.unmatchedBlock p1 .forK) ∧
      parseTokens [⟨.stmt, "if c:", p1⟩, ⟨.text, s, p2⟩, ⟨.expr, e, p3⟩,
          ⟨.eof, "", p4⟩] = .error (.unmatchedBlock p1 .ifK) ∧
      parseTokens [⟨.text, s, p1⟩, ⟨.stmt, "elif c:", p2⟩, ⟨.eof, "", p3⟩]
        = .error (.unmatchedBlock p2 .elifK) ∧
      parseTokens [⟨.text, s, p1⟩, ⟨.stmt, "else", p2⟩, ⟨.eof, "", p3⟩]
        = .error (.unmatchedBlock p2 .elseK) ∧
      parseTokens [⟨.text, s, p1⟩, ⟨.stmt, "endfor", p2⟩, ⟨.eof, "", p3⟩]
        = .error (.unmatchedBlock p2 .endforK) ∧
      parseTokens [⟨.text, s, p1⟩, ⟨.stmt, "endif", p2⟩, ⟨.eof, "", p3⟩]
        = .error (.unmatchedBlock p2 .endifK) := by
  intro s e p1 p2 p3 p4
  exact ⟨rfl, rfl, rfl, rfl, rfl, rfl⟩

/-- A single pool operation preserves the bound and the capacity. -/
theorem poolStep_bound (p : ThreadPool) (op : PoolOp) (h : p.size ≤ p.maxSize) :
    (p.step op).size ≤ p.maxSize ∧ (p.step op).maxSize = p.maxSize := by
  cases p with
  | mk mx ts =>
    cases op with
    | get name =>
      cases ts with
      | nil => exact ⟨h, rfl⟩
      | cons t ts2 =>
        refine ⟨?_, rfl⟩
        have h2 : ts2.length + 1 ≤ mx := h
        show ts2.length ≤ mx
        omega
    | put t =>
      by_cases hlt : ts.length < mx
      · have hstep : ThreadPool.step ⟨mx, ts⟩ (.put t) = ⟨mx, t :: ts⟩ := by
          simp [ThreadPool.step, ThreadPool.put, hlt]
        rw [hstep]
        refine ⟨?_, rfl⟩
        show ts.length + 1 ≤ mx
        omega
      · have hstep : ThreadPool.step ⟨mx, ts⟩ (.put t) = ⟨mx, ts⟩ := by
          simp [ThreadPool.step, ThreadPool.put, hlt]
        rw [hstep]
        exact ⟨h, rfl⟩

/-- The bound invariant holds after any operation sequence. -/
theorem runPoolOps_bound (ops : List PoolOp) (p : ThreadPool) (h : p.size ≤ p.maxSize) :
    (runPoolOps p ops).size ≤ p.maxSize ∧ (runPoolOps p ops).maxSize = p.maxSize := by
  induction ops generalizing p with
  | nil => exact ⟨h, rfl⟩
  | cons op ops ih =>
    have hstep := poolStep_bound p op h
    have := ih (p.step op) (hstep.2 ▸ hstep.1)
    simp only [runPoolOps, List.foldl_cons] at *
    exact ⟨hstep.2 ▸ this.1, hstep.2 ▸ this.2⟩

/-- Claim C8: after any sequence of Get and Put operations the number of
pooled threads never exceeds the configured bound; Put on a full pool
discards the thread; and the pool constructed with size zero uses the
default bound of sixteen. -/
theorem threadPool_bounded :
    ∀ (n : Nat) (ops : List PoolOp) (p : ThreadPool) (t : Thread),
      (runPoolOps (newThreadPool n) ops).size ≤ (newThreadPool n).maxSize ∧
      (newThreadPool 0).maxSize = 16 ∧
      (p.size = p.maxSize → p.put t = p) := by
  intro n ops p t
  refine ⟨(runPoolOps_bound ops (newThreadPool n) ?_).1, rfl, ?_⟩
  · simp [newThreadPool, ThreadPool.size]
  · intro h
    simp only [ThreadPool.put]
    have : ¬ p.threads.length < p.maxSize := by
      simp only [ThreadPool.size] at h; omega
    simp [this]

/-- Witness for C8 at a concrete full pool of capacity two. -/
theorem threadPool_bounded_witness :
    (ThreadPool.mk 2 [⟨"a"⟩, ⟨"b"⟩]).size = (ThreadPool.mk 2 [⟨"a"⟩, ⟨"b"⟩]).maxSize ∧
    ThreadPool.put ⟨2, [⟨"a"⟩, ⟨"b"⟩]⟩ ⟨"c"⟩ = ⟨2, [⟨"a"⟩, ⟨"b"⟩]⟩ :=
  ⟨rfl, (threadPool_bounded 2 [] ⟨2, [⟨"a"⟩, ⟨"b"⟩]⟩ ⟨"c"⟩).2.2 rfl⟩

/-- Claim C6: registering a macro under any reserved namespace fails, and a
successful registration never changes what the reserved global names resolve
to. -/
theorem addMacros_reserved_rejected :
    ∀ (g : Ctx) (v : Value) (ns : String) (ms : List (String × Value)) (g2 : Ctx),
      (ns ∈ reservedNamespaces →
        addMacros g [(ns, v)] = .error (.reservedNamespace ns)) ∧
      (addMacros g ms = .ok g2 →
        ∀ k, k ∈ reservedNamespaces → lookupCtx g2 k = lookupCtx g k) := by
  intro g v ns ms g2
  constructor
  · intro hns
    simp [addMacros, hns]
  · intro hok k hk
    unfold addMacros at hok
    split at hok
    · exact absurd hok (by simp)
    · rename_i hfind
      have hg2 : g2 = g ++ ms := by
        injection hok with h
        exact h.symm
      subst hg2
      have hms : ∀ m ∈ ms, reservedNamespaces.contains m.1 = false := by
        intro m hm
        have := List.find?_eq_none.mp hfind m hm
        simpa using this
      simp only [lookupCtx, List.find?_append]
      cases hfg : g.find? (fun kv => kv.1 == k) with
      | some kv => simp
      | none =>
        have hnone : ms.find? (fun kv => kv.1 == k) = Option.none := by
          apply List.find?_eq_none.mpr
          intro m hm hbeq
          have hmk : m.1 = k := by simpa using hbeq
          have hres := hms m hm
          rw [hmk] at hres
          have : reservedNamespaces.contains k = true := List.elem_eq_true_of_mem hk
          rw [this] at hres
          exact Bool.noConfusion hres
        simp [hnone]

/-- Witness for C6: a reserved registration fails and a successful one leaves
the reserved globals untouched. -/
theorem addMacros_reserved_rejected_witness :
    ("config" ∈ reservedNamespaces ∧
      addMacros [("env", Value.str "dev")] [("config", Value.str "x")] =
        .error (.reservedNamespace "config")) ∧
    (addMacros [("env", Value.str "dev")] [("utils", Value.str "m")] =
        .ok [("env", Value.str "dev"), ("utils", Value.str "m")] ∧
      lookupCtx [("env", Value.str "dev"), ("utils", Value.str "m")] "env" =
        lookupCtx [("env", Value.str "dev")] "env") := by
  refine ⟨⟨by decide, ?_⟩, rfl, ?_⟩
  · exact (addMacros_reserved_rejected [("env", Value.str "dev")] (Value.str "x")
      "config" [] []).1 (by decide)
  · exact (addMacros_reserved_rejected [("env", Value.str "dev")] (Value.str "x")
      "config" [("utils", Value.str "m")]
      [("env", Value.str "dev"), ("utils", Value.str "m")]).2 rfl "env" (by decide)

/-- Claim C7: loading a missing macros directory yields an empty registry and
no error, and loading a directory without star files yields a registry of
size zero and no error. -/
theorem loadMacros_missing_or_empty :
    ∀ (files : List StarFile),
      loadMacros Option.none = .ok [] ∧
      (files.all (fun f => !(endsWithChars f.name ".star")) = true →
        loadMacros (some files) = .ok []) := by
  intro files
  refine ⟨rfl, ?_⟩
  intro h
  have hfil : files.filter (fun f => endsWithChars f.name ".star") = [] := by
    apply List.filter_eq_nil_iff.mpr
    intro f hf
    have := List.all_eq_true.mp h f hf
    simpa using this
  simp [loadMacros, hfil, sortFiles, registerFiles]

/-- Witness for C7 at a directory holding one non-star file. -/
theorem loadMacros_missing_or_empty_witness :
    ([StarFile.mk "readme.txt" []].all
        (fun f => !(endsWithChars f.name ".star")) = true) ∧
    loadMacros (some [StarFile.mk "readme.txt" []]) = .ok [] :=
  ⟨by decide, (loadMacros_missing_or_empty [StarFile.mk "readme.txt" []]).2 (by decide)⟩

/-- Counterexample to claim C2: the projection item COALESCE(SUM(o.amount), 0)
contains an aggregate application, yet it is classified Direct, not
Expression, because the COALESCE draws on a single distinct source (pinned by
TestExtractLineage_Joins). -/
theorem lineage_agg_claim_counterexample :
    containsAgg coalesceSumColumn = true ∧
    classifyTransform coalesceSumColumn = .direct := by
  constructor
  · rfl
  · rfl

/-- Claim C2 as amended: an aggregate application in outermost position is
classified Expression with its argument sources enumerated; when the
aggregate is wrapped in a COALESCE, the COALESCE rule decides instead, an
Expression exactly when at least two distinct sources contribute, and Direct
otherwise. -/
theorem lineage_agg_amended :
    ∀ (nm cname : String) (a : Option SqlExpr) (x y : SqlExpr),
      classifyTransform (.aggFn nm a) = .expression ∧
      (mkColumnLineage cname (.aggFn nm a)).sources = (sqlSources (.aggFn nm a)).dedup ∧
      (2 ≤ ((sqlSources x ++ sqlSources y).dedup).length →
        classifyTransform (.coalesce x y) = .expression) ∧
      (((sqlSources x ++ sqlSources y).dedup).length < 2 →
        classifyTransform (.coalesce x y) = .direct) := by
  intro nm cname a x y
  refine ⟨rfl, rfl, ?_, ?_⟩
  · intro h; simp [classifyTransform, h]
  · intro h
    have : ¬ 2 ≤ ((sqlSources x ++ sqlSources y).dedup).length := by omega
    simp [classifyTransform, this]

/-- Witness for the amended C2 at SUM(u.a) and COALESCE(u.a, u.b). -/
theorem lineage_agg_amended_witness :
    (2 ≤ ((sqlSources (.col (some "u") "a") ++ sqlSources (.col (some "u") "b")).dedup).length ∧
      classifyTransform (.coalesce (.col (some "u") "a") (.col (some "u") "b")) =
        .expression) ∧
    (((sqlSources (.aggFn "SUM" (some (.col (some "u") "a"))) ++
        sqlSources (.lit "0")).dedup).length < 2 ∧
      classifyTransform (.coalesce (.aggFn "SUM" (some (.col (some "u") "a"))) (.lit "0")) =
        .direct) := by
  refine ⟨⟨by decide, ?_⟩, by decide, ?_⟩
  · exact (lineage_agg_amended "SUM" "c" Option.none (.col (some "u") "a")
      (.col (some "u") "b")).2.2.1 (by decide)
  · exact (lineage_agg_amended "SUM" "c" Option.none
      (.aggFn "SUM" (some (.col (some "u") "a"))) (.lit "0")).2.2.2 (by decide)

/-- Claim C10: peekStmtKind agrees with parseStmt on every statement token
text: when parseStmt succeeds, the produced node has exactly the peeked kind
and that kind is not unknown; parseStmt fails exactly when peekStmtKind
answers unknown. -/
theorem peekStmtKind_parseStmt_agree :
    ∀ (v : String) (p : Pos),
      match parseStmt ⟨.stmt, v, p⟩ with
      | .ok n => peekStmtKind v = n.kind ∧ n.kind ≠ .unknown
      | .error _ => peekStmtKind v = .unknown := by
  intro v p
  by_cases h1 : goTrim v.data = "endfor".data
  · simp [parseStmt, peekStmtKind, h1]
  by_cases h2 : goTrim v.data = "endif".data
  · simp [parseStmt, peekStmtKind, h1, h2]
  by_cases h3 : goTrim v.data = "else".data
  · simp [parseStmt, peekStmtKind, h1, h2, h3]
  by_cases h4 : goTrim v.data = "else:".data
  · simp [parseStmt, peekStmtKind, h1, h2, h3, h4]
  cases hf : forMatch (goTrim v.data) with
  | some xe =>
    cases xe with
    | mk x e => simp [parseStmt, peekStmtKind, h1, h2, h3, h4, hf]
  | none =>
    cases hi : ifMatch (goTrim v.data) with
    | some c => simp [parseStmt, peekStmtKind, h1, h2, h3, h4, hf, hi]
    | none =>
      cases he : elifMatch (goTrim v.data) with
      | some c => simp [parseStmt, peekStmtKind, h1, h2, h3, h4, hf, hi, he]
      | none => simp [parseStmt, peekStmtKind, h1, h2, h3, h4, hf, hi, he]

/-- Rendering the loop body consisting of the single expression x over the
elements of a sequence concatenates their stringifications, for any globals
and outer locals. -/
lemma renderLoop_identExpr (g locals : Ctx) (p : Pos) (xs : List Value) :
    renderLoop g locals "x" [Node.exprN p "x"] xs =
      .ok ((xs.map Value.strChars).flatten) := by
  induction xs with
  | nil => simp [renderLoop]
  | cons x xs ih =>
    have hid : isIdentChars "x".data = true := by decide
    simp [renderLoop, renderNodes, renderNode, evalExprString, evalExpr, hid,
      withLocal, lookupCtx, Except.map, ih]

/-- Claim C1: for every sequence bound as XS, rendering the template
consisting of a for loop over XS that interpolates the loop variable succeeds
and returns exactly the concatenation, in iteration order, of the
stringifications of the elements; in particular the empty sequence renders to
the empty string without error. -/
theorem render_forLoop_concatenates :
    ∀ xs : List Value,
      renderString "\x7b* for x in XS: *\x7d\x7b\x7b x \x7d\x7d\x7b* endfor *\x7d"
          [("XS", Value.list xs)] = .ok (concatStringified xs) := by
  intro xs
  have ht : tokenize "\x7b* for x in XS: *\x7d\x7b\x7b x \x7d\x7d\x7b* endfor *\x7d" =
      .ok [⟨.stmt, "for x in XS:", ⟨1, 1⟩⟩, ⟨.expr, "x", ⟨1, 19⟩⟩,
        ⟨.stmt, "endfor", ⟨1, 26⟩⟩, ⟨.eof, "", ⟨1, 38⟩⟩] := rfl
  have hp : parseTokens [⟨.stmt, "for x in XS:", ⟨1, 1⟩⟩, ⟨.expr, "x", ⟨1, 19⟩⟩,
        ⟨.stmt, "endfor", ⟨1, 26⟩⟩, ⟨.eof, "", ⟨1, 38⟩⟩] =
      .ok [Node.forB ⟨1, 1⟩ "x" "XS" [Node.exprN ⟨1, 19⟩ "x"]] := rfl
  have hid : isIdentChars "XS".data = true := by decide
  simp only [renderString, ht, hp]
  have hr : renderNodes [("XS", Value.list xs)] []
      [Node.forB ⟨1, 1⟩ "x" "XS" [Node.exprN ⟨1, 19⟩ "x"]] =
      .ok ((xs.map Value.strChars).flatten) := by
    simp [renderNodes, renderNode, evalExpr, hid, lookupCtx, Value.iterate,
      renderLoop_identExpr]
  rw [hr]
  rfl

/-- On input without any opening delimiter, the lexer stays in text mode and
produces the whole remaining input as one TEXT token (appended to the running
accumulator) followed by EOF. -/
lemma lexRun_text_noDelim :
    ∀ (fuel : Nat) (cs : List Char) (pos tokStart : Pos) (acc : List Char),
      cs.length < fuel → hasDelim cs = false →
      lexRun fuel .text cs pos tokStart 0 acc =
        .ok (flushText (acc ++ cs) tokStart ++ [⟨.eof, "", advChars pos cs⟩]) := by
  intro fuel
  induction fuel with
  | zero => intro cs pos tokStart acc hlen hnd; omega
  | succ f ih =>
    intro cs pos tokStart acc hlen hnd
    cases cs with
    | nil => simp [lexRun, advChars]
    | cons c cs2 =>
      simp only [hasDelim, Bool.or_eq_false_iff] at hnd
      obtain ⟨hod, hnd2⟩ := hnd
      simp only [lexRun]
      split
      · rename_i heq
        exact (List.cons_ne_nil c cs2 heq).elim
      · rename_i rest heq
        rw [heq] at hod
        simp [isOpenDelim] at hod
      · rename_i rest heq
        rw [heq] at hod
        simp [isOpenDelim] at hod
      · rename_i c2 rest heq
        injection heq with h1 h2
        subst h1
        subst h2
        rw [ih cs2 (advChar pos c) tokStart (acc ++ [c])
          (by simpa using Nat.lt_of_succ_lt_succ hlen) hnd2]
        simp [advChars, List.append_assoc]

/-- Claim C9: a template without template constructs (no opening delimiter
anywhere) renders to exactly its own source text, in any execution context
and in particular in the empty one. -/
theorem renderText_identity :
    ∀ (s : String) (g : Ctx), hasDelim s.data = false →
      renderString s g = .ok s := by
  intro s g h
  cases s with
  | mk d =>
    have h2 : hasDelim d = false := h
    cases d with
    | nil =>
      have ht : tokenize ⟨[]⟩ = .ok [⟨.eof, "", ⟨1, 1⟩⟩] := rfl
      have hp : parseTokens [⟨.eof, "", ⟨1, 1⟩⟩] = .ok [] := rfl
      have hr : renderNodes g [] [] = .ok [] := by simp [renderNodes]
      simp only [renderString, ht, hp, hr]
    | cons c cs2 =>
      have ht : tokenize ⟨c :: cs2⟩ =
          .ok (flushText (c :: cs2) ⟨1, 1⟩ ++
            [⟨.eof, "", advChars ⟨1, 1⟩ (c :: cs2)⟩]) := by
        have := lexRun_text_noDelim ((c :: cs2).length + 1) (c :: cs2) ⟨1, 1⟩ ⟨1, 1⟩ []
          (by omega) h2
        simpa [tokenize] using this
      rw [show flushText (c :: cs2) ⟨1, 1⟩ =
          [⟨.text, String.mk (c :: cs2), ⟨1, 1⟩⟩] from by simp [flushText],
        List.singleton_append] at ht
      have hp : parseTokens [⟨.text, String.mk (c :: cs2), ⟨1, 1⟩⟩,
          ⟨.eof, "", advChars ⟨1, 1⟩ (c :: cs2)⟩] =
          .ok [Node.text ⟨1, 1⟩ (String.mk (c :: cs2))] := rfl
      have hr : renderNodes g [] [Node.text ⟨1, 1⟩ (String.mk (c :: cs2))] =
          .ok (c :: cs2) := by
        simp [renderNodes, renderNode]
      simp only [renderString, ht, hp, hr]

/-- Witness for C9 at a concrete pure-text template and the empty context. -/
theorem renderText_identity_witness :
    hasDelim "SELECT * FROM users".data = false ∧
    renderString "SELECT * FROM users" [] = .ok "SELECT * FROM users" :=
  ⟨by decide, renderText_identity "SELECT * FROM users" [] (by decide)⟩

/-! ### Trailing-colon behaviour of the statement patterns (claim C3) -/

lemma trimRws_concat_nonws (cs : List Char) (c : Char) (h : isRegexSpace c = false) :
    trimRws (cs ++ [c]) = cs ++ [c] := by
  simp [trimRws, List.reverse_concat, List.dropWhile_cons, h]

lemma trimRws_eq_self_of_getLast (r : List Char)
    (h : ∀ c, r.getLast? = some c → isRegexSpace c = false) :
    trimRws r = r := by
  cases hr : r.reverse with
  | nil =>
    have : r = [] := by simpa using congrArg List.reverse hr
    simp [this, trimRws]
  | cons c rest =>
    have hlast : r.getLast? = some c := by
      rw [← List.head?_reverse, hr]
      rfl
    have hc := h c hlast
    have h2 : trimRws r = (c :: rest).reverse := by
      simp [trimRws, hr, List.dropWhile_cons, hc]
    rw [h2, ← hr, List.reverse_reverse]

lemma getLast?_of_suffix {l1 l2 : List Char} (h : l1 <:+ l2) (hne : l1 ≠ []) :
    l1.getLast? = l2.getLast? := by
  obtain ⟨pre, rfl⟩ := h
  exact (List.getLast?_append_of_ne_nil pre hne).symm

lemma stripPre_suffix : ∀ (pre cs r : List Char), stripPre pre cs = some r → r <:+ cs := by
  intro pre
  induction pre with
  | nil => intro cs r h; simp [stripPre] at h; rw [← h]
  | cons p ps ih =>
    intro cs r h
    cases cs with
    | nil => simp [stripPre] at h
    | cons c cs2 =>
      simp only [stripPre] at h
      split at h
      · exact (ih cs2 r h).trans (List.suffix_cons c cs2)
      · exact absurd h (by simp)

lemma stripPre_append : ∀ (pre cs r u : List Char),
    stripPre pre cs = some r → stripPre pre (cs ++ u) = some (r ++ u) := by
  intro pre
  induction pre with
  | nil => intro cs r u h; simp [stripPre] at h ⊢; rw [h]
  | cons p ps ih =>
    intro cs r u h
    cases cs with
    | nil => simp [stripPre] at h
    | cons c cs2 =>
      simp only [stripPre] at h ⊢
      split at h
      · rename_i hc
        simp only [List.cons_append, stripPre, hc, if_pos]
        exact ih cs2 r u h
      · exact absurd h (by simp)

lemma stripPre_cons_ne (p : Char) (ps : List Char) (c : Char) (cs : List Char)
    (h : c ≠ p) : stripPre (p :: ps) (c :: cs) = Option.none := by
  simp [stripPre, h]

lemma reqWS_suffix (cs r : List Char) (h : reqWS cs = some r) : r <:+ cs := by
  cases cs with
  | nil => simp [reqWS] at h
  | cons c cs2 =>
    simp only [reqWS] at h
    split at h
    · injection h with h2
      rw [← h2]
      exact (List.dropWhile_suffix isRegexSpace).trans (List.suffix_cons c cs2)
    · exact absurd h (by simp)

lemma reqWS_append (cs r u : List Char) (h : reqWS cs = some r) (hr : r ≠ []) :
    reqWS (cs ++ u) = some (r ++ u) := by
  cases cs with
  | nil => simp [reqWS] at h
  | cons c cs2 =>
    simp only [reqWS] at h
    split at h
    · rename_i hc
      injection h with h2
      simp only [List.cons_append, reqWS, hc, if_pos]
      rw [← h2] at hr ⊢
      rw [List.dropWhile_append]
      simp [List.isEmpty_iff, hr]
    · exact absurd h (by simp)

lemma tailCapture_some_ne_nil (r e : List Char) (h : tailCapture r = some e) : r ≠ [] := by
  intro hr
  rw [hr] at h
  simp [tailCapture, trimRws] at h

lemma tailCapture_self (r e : List Char) (hnw : trimRws r = r)
    (hlast : r.getLast? ≠ some ':') (h : tailCapture r = some e) : e = r := by
  have hne := tailCapture_some_ne_nil r e h
  simp only [tailCapture, hnw] at h
  rw [if_neg (by simpa [List.isEmpty_iff] using hne)] at h
  rw [if_neg hlast] at h
  injection h with h2
  exact h2.symm

lemma tailCapture_append_colon (r e : List Char) (hnw : trimRws r = r)
    (hlast : r.getLast? ≠ some ':') (h : tailCapture r = some e) :
    tailCapture (r ++ [':']) = some e := by
  have hne := tailCapture_some_ne_nil r e h
  have he : e = r := tailCapture_self r e hnw hlast h
  have hcolon : isRegexSpace ':' = false := by decide
  simp only [tailCapture, trimRws_concat_nonws r ':' hcolon]
  rw [if_neg (by simp [List.isEmpty_iff])]
  rw [if_pos (List.getLast?_concat r)]
  rw [List.dropLast_concat, hnw]
  rw [if_neg (by simpa [List.isEmpty_iff] using hne)]
  rw [he]

lemma reqWS_some_ne_nil (cs r : List Char) (h : reqWS cs = some r) : cs ≠ [] := by
  intro hcs
  rw [hcs] at h
  simp [reqWS] at h

lemma exprTail_append_colon (cs e : List Char) (h : exprTail cs = some e)
    (hlast : cs.getLast? ≠ some ':')
    (hnws : ∀ c, cs.getLast? = some c → isRegexSpace c = false) :
    exprTail (cs ++ [':']) = some e := by
  unfold exprTail at h
  cases hq : reqWS cs with
  | none => rw [hq] at h; exact absurd h (by simp)
  | some r =>
    rw [hq] at h
    have hrne : r ≠ [] := tailCapture_some_ne_nil r e h
    have hsuf : r <:+ cs := reqWS_suffix cs r hq
    have hgl : r.getLast? = cs.getLast? := getLast?_of_suffix hsuf hrne
    have hnw : trimRws r = r :=
      trimRws_eq_self_of_getLast r (fun c hc => hnws c (hgl ▸ hc))
    have hlastr : r.getLast? ≠ some ':' := by rw [hgl]; exact hlast
    unfold exprTail
    rw [reqWS_append cs r [':'] hq hrne]
    exact tailCapture_append_colon r e hnw hlastr h

lemma exprTail_some_ne_nil (cs e : List Char) (h : exprTail cs = some e) : cs ≠ [] := by
  unfold exprTail at h
  cases hq : reqWS cs with
  | none => rw [hq] at h; exact absurd h (by simp)
  | some r => exact reqWS_some_ne_nil cs r hq

lemma ifMatch_append_colon (t e : List Char) (hm : ifMatch t = some e)
    (hlast : t.getLast? ≠ some ':')
    (hnws : ∀ c, t.getLast? = some c → isRegexSpace c = false) :
    ifMatch (t ++ [':']) = some e := by
  unfold ifMatch at hm ⊢
  cases hs0 : stripPre "if".data t with
  | none => rw [hs0] at hm; exact absurd hm (by simp)
  | some r0 =>
    rw [hs0] at hm
    have hr0ne : r0 ≠ [] := exprTail_some_ne_nil r0 e hm
    have hsuf : r0 <:+ t := stripPre_suffix _ t r0 hs0
    have hgl : r0.getLast? = t.getLast? := getLast?_of_suffix hsuf hr0ne
    rw [stripPre_append _ t r0 [':'] hs0]
    exact exprTail_append_colon r0 e hm (hgl ▸ hlast) (fun c hc => hnws c (hgl ▸ hc))

lemma elifMatch_append_colon (t e : List Char) (hm : elifMatch t = some e)
    (hlast : t.getLast? ≠ some ':')
    (hnws : ∀ c, t.getLast? = some c → isRegexSpace c = false) :
    elifMatch (t ++ [':']) = some e := by
  unfold elifMatch at hm ⊢
  cases hs0 : stripPre "elif".data t with
  | none => rw [hs0] at hm; exact absurd hm (by simp)
  | some r0 =>
    rw [hs0] at hm
    have hr0ne : r0 ≠ [] := exprTail_some_ne_nil r0 e hm
    have hsuf : r0 <:+ t := stripPre_suffix _ t r0 hs0
    have hgl : r0.getLast? = t.getLast? := getLast?_of_suffix hsuf hr0ne
    rw [stripPre_append _ t r0 [':'] hs0]
    exact exprTail_append_colon r0 e hm (hgl ▸ hlast) (fun c hc => hnws c (hgl ▸ hc))

lemma forMatch_append_colon (t x e : List Char) (hm : forMatch t = some (x, e))
    (hlast : t.getLast? ≠ some ':')
    (hnws : ∀ c, t.getLast? = some c → isRegexSpace c = false) :
    forMatch (t ++ [':']) = some (x, e) := by
  unfold forMatch at hm ⊢
  split at hm
  · exact absurd hm (by simp)
  rename_i r0 hs0
  split at hm
  · exact absurd hm (by simp)
  rename_i r1 h1
  split at hm
  · exact absurd hm (by simp)
  rename_i hxe
  split at hm
  · exact absurd hm (by simp)
  rename_i r3 h3
  split at hm
  · exact absurd hm (by simp)
  rename_i r4 h4
  split at hm
  · exact absurd hm (by simp)
  rename_i e0 h5
  injection hm with hm2
  have hx0 : r1.takeWhile isWordChar = x := congrArg Prod.fst hm2
  have he0 : e0 = e := congrArg Prod.snd hm2
  have hr1ne : r1 ≠ [] := by
    intro hr
    rw [hr] at hxe
    simp at hxe
  have hdropne : r1.drop (r1.takeWhile isWordChar).length ≠ [] :=
    reqWS_some_ne_nil _ r3 h3
  have hlt : (r1.takeWhile isWordChar).length < r1.length := by
    by_contra hge
    push_neg at hge
    exact hdropne (List.drop_eq_nil_iff.mpr (by omega))
  have hr3ne : r3 ≠ [] := by
    intro hr
    rw [hr] at h4
    simp [stripPre] at h4
  have hr4ne : r4 ≠ [] := exprTail_some_ne_nil r4 e0 h5
  have hsuf : r4 <:+ t := by
    have s1 : r4 <:+ r3 := stripPre_suffix _ r3 r4 h4
    have s2 : r3 <:+ r1.drop (r1.takeWhile isWordChar).length :=
      reqWS_suffix _ r3 h3
    have s3 : r1.drop (r1.takeWhile isWordChar).length <:+ r1 :=
      List.drop_suffix _ r1
    have s4 : r1 <:+ r0 := reqWS_suffix r0 r1 h1
    have s5 : r0 <:+ t := stripPre_suffix _ t r0 hs0
    exact s1.trans (s2.trans (s3.trans (s4.trans s5)))
  have hgl : r4.getLast? = t.getLast? := getLast?_of_suffix hsuf hr4ne
  have h5' : exprTail (r4 ++ [':']) = some e0 :=
    exprTail_append_colon r4 e0 h5 (hgl ▸ hlast) (fun c hc => hnws c (hgl ▸ hc))
  have htake : (r1 ++ [':']).takeWhile isWordChar = r1.takeWhile isWordChar := by
    rw [List.takeWhile_append]
    rw [if_neg (by omega)]
  have hdrop : (r1 ++ [':']).drop (r1.takeWhile isWordChar).length =
      r1.drop (r1.takeWhile isWordChar).length ++ [':'] :=
    List.drop_append_of_le_length (by omega)
  simp only [stripPre_append _ t r0 [':'] hs0, reqWS_append r0 r1 [':'] h1 hr1ne,
    htake, hdrop, reqWS_append _ r3 [':'] h3 hr3ne, stripPre_append _ r3 r4 [':'] h4,
    h5']
  rw [if_neg hxe]
  rw [hx0, he0]

lemma trimRight_prefix (cs : List Char) : trimRightChars cs <+: cs := by
  have h : (trimRightChars cs).reverse <:+ cs.reverse := by
    simp only [trimRightChars, List.reverse_reverse]
    exact List.dropWhile_suffix isGoSpace
  exact List.reverse_suffix.mp h

lemma trimLeft_of_goTrim_eq (cs : List Char) (h : goTrim cs = cs) :
    trimLeftChars cs = cs := by
  have hsuf : trimLeftChars cs <:+ cs := List.dropWhile_suffix isGoSpace
  have hpre : trimRightChars (trimLeftChars cs) <+: trimLeftChars cs :=
    trimRight_prefix (trimLeftChars cs)
  have hlen : cs.length ≤ (trimLeftChars cs).length := by
    have h1 := hpre.length_le
    have h2 : (goTrim cs).length = cs.length := by rw [h]
    simp only [goTrim] at h2
    omega
  exact hsuf.eq_of_length (Nat.le_antisymm hsuf.length_le hlen)

lemma trimRight_of_goTrim_eq (cs : List Char) (h : goTrim cs = cs) :
    trimRightChars cs = cs := by
  have hl := trimLeft_of_goTrim_eq cs h
  calc trimRightChars cs = goTrim cs := by rw [goTrim, hl]
  _ = cs := h

lemma getLast_not_goSpace (cs : List Char) (c : Char)
    (h : trimRightChars cs = cs) (hl : cs.getLast? = some c) : isGoSpace c = false := by
  by_contra hsp
  rw [Bool.not_eq_false] at hsp
  cases hr : cs.reverse with
  | nil =>
    have : cs = [] := by simpa using congrArg List.reverse hr
    rw [this] at hl
    simp at hl
  | cons c2 rest =>
    have hc2 : c2 = c := by
      have := List.head?_reverse cs
      rw [hr] at this
      simp only [List.head?_cons] at this
      rw [hl] at this
      injection this
    subst hc2
    have hlen : (trimRightChars cs).length < cs.length := by
      have hdw : (cs.reverse.dropWhile isGoSpace).length ≤ rest.length := by
        rw [hr, List.dropWhile_cons, if_pos hsp]
        exact (List.dropWhile_suffix isGoSpace).length_le
      have hcs : cs.length = rest.length + 1 := by
        have := congrArg List.length hr
        simpa using this
      simp only [trimRightChars, List.length_reverse]
      omega
    rw [h] at hlen
    omega

lemma regexSpace_goSpace (c : Char) (h : isRegexSpace c = true) : isGoSpace c = true := by
  simp only [isRegexSpace, Bool.or_eq_true, decide_eq_true_eq] at h
  simp only [isGoSpace, Bool.or_eq_true, decide_eq_true_eq]
  tauto

lemma goTrim_append_colon (cs : List Char) (h : goTrim cs = cs) (hne : cs ≠ []) :
    goTrim (cs ++ [':']) = cs ++ [':'] := by
  have hl := trimLeft_of_goTrim_eq cs h
  have hcolon : isGoSpace ':' = false := by decide
  have h1 : trimLeftChars (cs ++ [':']) = cs ++ [':'] := by
    have hdw : List.dropWhile isGoSpace cs = cs := hl
    simp only [trimLeftChars, List.dropWhile_append, hdw]
    rw [if_neg (by simpa [List.isEmpty_iff] using hne)]
  have h2 : trimRightChars (cs ++ [':']) = cs ++ [':'] := by
    simp [trimRightChars, List.reverse_concat, List.dropWhile_cons, hcolon]
  rw [goTrim, h1, h2]

lemma concat_colon_ne_word (cs l : List Char) (h : l.getLast? ≠ some ':') :
    cs ++ [':'] ≠ l := by
  intro he
  apply h
  rw [← he]
  exact List.getLast?_concat cs

lemma stripPre_cons_head (k : Char) (ks t r : List Char)
    (h : stripPre (k :: ks) t = some r) : ∃ rest, t = k :: rest := by
  cases t with
  | nil => simp [stripPre] at h
  | cons c cs =>
    simp only [stripPre] at h
    split at h
    · rename_i hc
      exact ⟨cs, by rw [hc]⟩
    · exact absurd h (by simp)

lemma forMatch_none_of_head (t : List Char) (c : Char) (rest : List Char)
    (ht : t = c :: rest) (hc : c ≠ 'f') : forMatch t = Option.none := by
  unfold forMatch
  rw [ht, stripPre_cons_ne 'f' _ c rest hc]

lemma ifMatch_none_of_head (t : List Char) (c : Char) (rest : List Char)
    (ht : t = c :: rest) (hc : c ≠ 'i') : ifMatch t = Option.none := by
  unfold ifMatch
  rw [ht, stripPre_cons_ne 'i' _ c rest hc]

/-- Claim C3 as amended: for an accepted, whitespace-trimmed statement body of
the for, if, elif or else form that does not already end in a colon,
appending a colon still parses and produces the same statement node; the
endfor and endif forms admit no trailing colon (see the counterexample). -/
theorem colon_optional_amended :
    ∀ (v : String) (p : Pos) (n : StmtNode),
      goTrim v.data = v.data →
      parseStmt ⟨.stmt, v, p⟩ = .ok n →
      (n.kind = .forK ∨ n.kind = .ifK ∨ n.kind = .elifK ∨ n.kind = .elseK) →
      v.data.getLast? ≠ some ':' →
      parseStmt ⟨.stmt, v ++ ":", p⟩ = .ok n := by
  intro v p n htrim hok hkind hlast
  have hdata : (v ++ ":").data = v.data ++ [':'] := by
    rw [String.data_append]
  have hvne : v.data ≠ [] := by
    intro h0
    have hv : v = "" := by
      cases v with
      | mk d => simp only at h0; rw [h0]
    rw [hv] at hok
    have hcomp : parseStmt ⟨.stmt, "", p⟩ = .error (.invalidStatement p "") := rfl
    rw [hcomp] at hok
    exact absurd hok (by simp)
  have htrimR := trimRight_of_goTrim_eq v.data htrim
  have hnosp : ∀ c, v.data.getLast? = some c → isRegexSpace c = false := by
    intro c hc
    by_contra hrs
    rw [Bool.not_eq_false] at hrs
    have hgo := regexSpace_goSpace c hrs
    rw [getLast_not_goSpace v.data c htrimR hc] at hgo
    exact Bool.noConfusion hgo
  have htrim' := goTrim_append_colon v.data htrim hvne
  simp only [parseStmt, htrim] at hok
  simp only [parseStmt, hdata, htrim']
  rw [if_neg (concat_colon_ne_word v.data "endfor".data (by decide))]
  rw [if_neg (concat_colon_ne_word v.data "endif".data (by decide))]
  rw [if_neg (concat_colon_ne_word v.data "else".data (by decide))]
  split at hok
  · rename_i h1
    injection hok with hn
    rw [← hn] at hkind
    simp at hkind
  split at hok
  · rename_i h2
    injection hok with hn
    rw [← hn] at hkind
    simp at hkind
  split at hok
  · rename_i h3
    injection hok with hn
    rw [if_pos (show v.data ++ [':'] = "else:".data by rw [h3]; rfl)]
    rw [hn]
  split at hok
  · rename_i h4
    rw [h4] at hlast
    exact absurd (by decide : ("else:".data : List Char).getLast? = some ':') hlast
  rename_i h1 h2 h3 h4
  rw [if_neg (show ¬ v.data ++ [':'] = "else:".data by
    intro he
    have h5 : v.data ++ [':'] = "else".data ++ [':'] := by rw [he]; rfl
    exact h3 (List.append_cancel_right h5))]
  split at hok
  · rename_i x e heqf
    injection hok with hn
    rw [forMatch_append_colon v.data x e heqf hlast hnosp]
    exact congrArg Except.ok hn
  · rename_i heqf
    split at hok
    · rename_i c heqi
      have hhead : ∃ rest, v.data = 'i' :: rest := by
        unfold ifMatch at heqi
        cases hs : stripPre "if".data v.data with
        | none => rw [hs] at heqi; exact absurd heqi (by simp)
        | some r0 => exact stripPre_cons_head 'i' _ v.data r0 hs
      obtain ⟨rest, hh⟩ := hhead
      have hfor : forMatch (v.data ++ [':']) = Option.none :=
        forMatch_none_of_head _ 'i' (rest ++ [':']) (by rw [hh]; rfl) (by decide)
      injection hok with hn
      rw [hfor, ifMatch_append_colon v.data c heqi hlast hnosp]
      exact congrArg Except.ok hn
    · rename_i heqi
      split at hok
      · rename_i c heqe
        have hhead : ∃ rest, v.data = 'e' :: rest := by
          unfold elifMatch at heqe
          cases hs : stripPre "elif".data v.data with
          | none => rw [hs] at heqe; exact absurd heqe (by simp)
          | some r0 => exact stripPre_cons_head 'e' _ v.data r0 hs
        obtain ⟨rest, hh⟩ := hhead
        have hfor : forMatch (v.data ++ [':']) = Option.none :=
          forMatch_none_of_head _ 'e' (rest ++ [':']) (by rw [hh]; rfl) (by decide)
        have hif : ifMatch (v.data ++ [':']) = Option.none :=
          ifMatch_none_of_head _ 'e' (rest ++ [':']) (by rw [hh]; rfl) (by decide)
        injection hok with hn
        rw [hfor, hif, elifMatch_append_colon v.data c heqe hlast hnosp]
        exact congrArg Except.ok hn
      · exact absurd hok (by simp)

/-- Counterexample to claim C3: the statement body endfor is accepted, but
appending a colon makes it an invalid statement; the trailing colon is not
optional for the endfor form. -/
theorem colon_optional_counterexample :
    peekStmtKind "endfor" = .endforK ∧
    parseStmt ⟨.stmt, "endfor", ⟨1, 1⟩⟩ = .ok ⟨⟨1, 1⟩, .endforK, "", ""⟩ ∧
    peekStmtKind "endfor:" = .unknown ∧
    parseStmt ⟨.stmt, "endfor:", ⟨1, 1⟩⟩ =
      .error (.invalidStatement ⟨1, 1⟩ "endfor:") :=
  ⟨rfl, rfl, rfl, rfl⟩

/-- Witness for the amended C3 at the body for x in items. -/
theorem colon_optional_amended_witness :
    parseStmt ⟨.stmt, "for x in items", ⟨1, 1⟩⟩ =
      .ok ⟨⟨1, 1⟩, .forK, "x", "items"⟩ ∧
    parseStmt ⟨.stmt, "for x in items" ++ ":", ⟨1, 1⟩⟩ =
      .ok ⟨⟨1, 1⟩, .forK, "x", "items"⟩ :=
  ⟨rfl, colon_optional_amended "for x in items" ⟨1, 1⟩ ⟨⟨1, 1⟩, .forK, "x", "items"⟩
    (by decide) rfl (Or.inl rfl) (by decide)⟩
